import Mathlib

set_option maxRecDepth 100000

/-!
# Verification of the Context Key cryptographic envelope

This development is a shallow embedding of `packages/crypto/src/crypto.ts`
(signing, verification, password-based sealing and opening of context keys)
together with the data model of `packages/crypto/src/types.ts` and the
validation schemas of `packages/shared/src/validation.ts`.

Modeling conventions:

* JavaScript runtime values handed to `JSON.stringify` are modeled by the
  mutually inductive type `Jval` (objects keep field insertion order, as JS
  objects do).
* `JSON.stringify(value, replacerArray)` is modeled exactly per ECMA-262:
  when the replacer is an array it acts as a key whitelist applied to
  **every** object at **every** nesting depth, and keys are emitted in the
  order of the replacer array.  We factor it as a recursive filter
  (`filterVal`) followed by plain rendering (`renderVal`).
* The tweetnacl Ed25519 primitives are modeled symbolically, including the
  `checkArrayTypes` guard both entry points run first.  crypto.ts passes the
  serialized record through tweetnacl-util's `encodeUTF8` — the
  bytes-to-string direction of that codec (`decodeUTF8` is string-to-bytes)
  — so the message handed to `nacl.sign.detached` and
  `nacl.sign.detached.verify` is a JS string, and both calls throw
  `TypeError "unexpected type, use Uint8Array"` before any signing, size
  check or curve operation.  A hypothetical detached signature over a byte
  message is an attestation to the message and the secret key's public half
  (`SigPayload.sig`, with UTF-8 injectivity letting a byte message be
  carried as its `String`); the size checks replay tweetnacl's thrown
  errors.
* The tweetnacl-util base64 codec is modeled by a tagged type: a string is
  either a valid encoding of a payload or malformed (decoding a malformed
  string throws, which the model surfaces as `Except.error`).
* WebCrypto PBKDF2/AES-GCM are idealized: a derived key records the
  algorithm, hash and inputs actually given to `deriveKey`; an AES-GCM
  ciphertext authenticates its key and IV, and opening succeeds exactly when
  both match (otherwise the `OperationError` thrown by `crypto.subtle.decrypt`).
* Thrown JS exceptions are modeled as `Except.error`; `crypto.getRandomValues`
  outputs are passed as explicit arguments.
-/

/-- JavaScript numbers as far as the claims need them: either the non-finite
`NaN` (which `JSON.stringify` renders as `null`) or a finite integer. -/
inductive JsNum where
  | nan : JsNum
  | int (n : Int) : JsNum
deriving DecidableEq

mutual

/-- A JavaScript runtime value as seen by `JSON.stringify`: null, booleans,
numbers, strings, arrays, and objects with insertion-ordered fields. -/
inductive Jval where
  | jnull : Jval
  | jbool (b : Bool) : Jval
  | jnum (n : JsNum) : Jval
  | jstr (s : String) : Jval
  | jarr (xs : JArr) : Jval
  | jobj (fs : JObj) : Jval
deriving DecidableEq

/-- A JavaScript array of values. -/
inductive JArr where
  | nil : JArr
  | cons (hd : Jval) (tl : JArr) : JArr
deriving DecidableEq

/-- The insertion-ordered fields of a JavaScript object. -/
inductive JObj where
  | nil : JObj
  | cons (k : String) (v : Jval) (tl : JObj) : JObj
deriving DecidableEq

end

/-- Keys of an object, in insertion order (the order `Object.keys` returns
for string keys). -/
def keysOf : JObj → List String
  | .nil => []
  | .cons k _ t => k :: keysOf t

/-- Property lookup on an object (`Get(value, P)`): the first field named `k`.
JavaScript objects never hold two fields with the same key. -/
def lookupJ (k : String) : JObj → Option Jval
  | .nil => none
  | .cons k1 v t => if k1 = k then some v else lookupJ k t

/-- Hexadecimal digit for `JSON.stringify` control-character escapes. -/
def hexDigit (n : Nat) : Char :=
  if n < 10 then Char.ofNat (48 + n) else Char.ofNat (87 + n)

/-- Four-digit hexadecimal rendering of a code point below 0x20. -/
def hex4 (n : Nat) : String :=
  String.mk [hexDigit (n / 4096 % 16), hexDigit (n / 256 % 16),
             hexDigit (n / 16 % 16), hexDigit (n % 16)]

/-- Escaping of a single character inside a JSON string literal, per the
QuoteJSONString operation of ECMA-262. -/
def escapeChar (c : Char) : String :=
  if c = '"' then "\\\""
  else if c = '\\' then "\\\\"
  else if c = '\u0008' then "\\b"
  else if c = '\u000c' then "\\f"
  else if c = '\n' then "\\n"
  else if c = '\r' then "\\r"
  else if c = '\t' then "\\t"
  else if c.toNat < 32 then "\\u" ++ hex4 c.toNat
  else String.singleton c

/-- JSON string literal rendering (QuoteJSONString). -/
def jsonQuote (s : String) : String :=
  "\"" ++ String.join (s.data.map escapeChar) ++ "\""

/-- Rendering of a JavaScript number by `JSON.stringify`: finite numbers
print via ToString, non-finite numbers print as `null`. -/
def renderNum : JsNum → String
  | .nan => "null"
  | .int n => toString n

mutual

/-- Plain `JSON.stringify` rendering of a value (no replacer filtering). -/
def renderVal : Jval → String
  | .jnull => "null"
  | .jbool true => "true"
  | .jbool false => "false"
  | .jnum n => renderNum n
  | .jstr s => jsonQuote s
  | .jarr xs => "[" ++ renderArr xs ++ "]"
  | .jobj fs => "\x7b" ++ renderObj fs ++ "\x7d"

/-- Comma-separated rendering of array elements. -/
def renderArr : JArr → String
  | .nil => ""
  | .cons v .nil => renderVal v
  | .cons v (.cons w t) => renderVal v ++ "," ++ renderArr (.cons w t)

/-- Comma-separated rendering of object fields. -/
def renderObj : JObj → String
  | .nil => ""
  | .cons k v .nil => jsonQuote k ++ ":" ++ renderVal v
  | .cons k v (.cons k2 w t) =>
      jsonQuote k ++ ":" ++ renderVal v ++ "," ++ renderObj (.cons k2 w t)

end

/-- Reordering of an (already recursively filtered) object by a replacer key
list `W`: for each key of `W` in order, its first binding if present.  This is
the key iteration order SerializeJSONObject uses when a PropertyList is
present. -/
def reorderFields (W : List String) (fs : JObj) : JObj :=
  match W with
  | [] => .nil
  | k :: ks =>
    match lookupJ k fs with
    | some v => .cons k v (reorderFields ks fs)
    | none => reorderFields ks fs

mutual

/-- Effect of a `JSON.stringify` array replacer on a value: at every object,
keep exactly the whitelisted keys, in whitelist order, and recurse into the
kept values; arrays are untouched apart from recursing into their elements. -/
def filterVal (W : List String) : Jval → Jval
  | .jnull => .jnull
  | .jbool b => .jbool b
  | .jnum n => .jnum n
  | .jstr s => .jstr s
  | .jarr xs => .jarr (filterArr W xs)
  | .jobj fs => .jobj (reorderFields W (filterObj W fs))

/-- Elementwise filtering of an array. -/
def filterArr (W : List String) : JArr → JArr
  | .nil => .nil
  | .cons v t => .cons (filterVal W v) (filterArr W t)

/-- Fieldwise filtering of an object's values (order and keys kept; the key
whitelist and reordering are applied on top by `filterVal`). -/
def filterObj (W : List String) : JObj → JObj
  | .nil => .nil
  | .cons k v t => .cons k (filterVal W v) (filterObj W t)

end

/-- Lexicographic comparison of character lists by code point, mirroring the
code-unit comparison the JS default `Array.prototype.sort` applies to
strings (all keys in this development are ASCII, where the two coincide). -/
def lexLe : List Char → List Char → Bool
  | [], _ => true
  | _ :: _, [] => false
  | a :: as, b :: bs =>
    if a.toNat < b.toNat then true
    else if b.toNat < a.toNat then false
    else lexLe as bs

/-- String comparison used by the JS default sort. -/
def strLeB (a b : String) : Bool := lexLe a.data b.data

theorem lexLe_total (x y : List Char) : lexLe x y = true ∨ lexLe y x = true := by
  induction x generalizing y with
  | nil => left; rfl
  | cons a as ih =>
    cases y with
    | nil => right; rfl
    | cons b bs =>
      simp only [lexLe]
      rcases Nat.lt_trichotomy a.toNat b.toNat with h | h | h
      · left; simp [h]
      · have hba : ¬ b.toNat < a.toNat := by omega
        have hab : ¬ a.toNat < b.toNat := by omega
        simpa [hab, hba] using ih bs
      · right; simp [h, Nat.lt_asymm h]

theorem lexLe_antisymm (x y : List Char) (hxy : lexLe x y = true)
    (hyx : lexLe y x = true) : x = y := by
  induction x generalizing y with
  | nil =>
    cases y with
    | nil => rfl
    | cons b bs => simp [lexLe] at hyx
  | cons a as ih =>
    cases y with
    | nil => simp [lexLe] at hxy
    | cons b bs =>
      simp only [lexLe] at hxy hyx
      rcases Nat.lt_trichotomy a.toNat b.toNat with h | h | h
      · simp [h, Nat.lt_asymm h] at hyx
      · have hba : ¬ b.toNat < a.toNat := by omega
        have hab : ¬ a.toNat < b.toNat := by omega
        simp only [hab, hba, if_false] at hxy hyx
        have hc : a = b := Char.ext (UInt32.ext (by simpa [Char.toNat] using h))
        rw [hc, ih bs hxy hyx]
      · simp [h, Nat.lt_asymm h] at hxy

theorem lexLe_cons_iff (a b : Char) (as bs : List Char) :
    lexLe (a :: as) (b :: bs) = true ↔
      (a.toNat < b.toNat ∨ (a.toNat = b.toNat ∧ lexLe as bs = true)) := by
  simp only [lexLe]
  rcases Nat.lt_trichotomy a.toNat b.toNat with h | h | h
  · simp [h]
  · simp [h, Nat.lt_irrefl]
  · simp [h, Nat.lt_asymm h]
    omega

theorem lexLe_trans (x y z : List Char) (hxy : lexLe x y = true)
    (hyz : lexLe y z = true) : lexLe x z = true := by
  induction x generalizing y z with
  | nil => rfl
  | cons a as ih =>
    cases y with
    | nil => simp [lexLe] at hxy
    | cons b bs =>
      cases z with
      | nil => simp [lexLe] at hyz
      | cons c cs =>
        rw [lexLe_cons_iff] at hxy hyz ⊢
        rcases hxy with h1 | ⟨h1, h1t⟩ <;> rcases hyz with h2 | ⟨h2, h2t⟩
        · left; omega
        · left; omega
        · left; omega
        · right; exact ⟨by omega, ih bs cs h1t h2t⟩

/-- The ordering relation of the JS default string sort, as a proposition. -/
def StrLe (a b : String) : Prop := strLeB a b = true

instance : DecidableRel StrLe := fun a b => instDecidableEqBool (strLeB a b) true

instance : IsTotal String StrLe :=
  ⟨fun a b => lexLe_total a.data b.data⟩

instance : IsTrans String StrLe :=
  ⟨fun a b c hab hbc => lexLe_trans a.data b.data c.data hab hbc⟩

instance : IsAntisymm String StrLe :=
  ⟨fun a b hab hba => by
    have h := lexLe_antisymm a.data b.data hab hba
    cases a; cases b; exact congrArg String.mk h⟩

/-- Insertion of a string into a sorted list (ascending JS default order). -/
def insertSorted (s : String) : List String → List String
  | [] => [s]
  | t :: ts => if strLeB s t then s :: t :: ts else t :: insertSorted s ts

/-- The JS default `Array.prototype.sort` on an array of strings: ascending
by code units. -/
def sortKeys : List String → List String
  | [] => []
  | s :: ss => insertSorted s (sortKeys ss)

theorem insertSorted_perm (s : String) (l : List String) :
    List.Perm (insertSorted s l) (s :: l) := by
  induction l with
  | nil => exact List.Perm.refl _
  | cons t ts ih =>
    by_cases h : strLeB s t = true
    · simp [insertSorted, h]
    · simp only [insertSorted, h, if_false]
      exact ((ih.cons t).trans (List.Perm.swap s t ts))

theorem sortKeys_perm (l : List String) : List.Perm (sortKeys l) l := by
  induction l with
  | nil => exact List.Perm.refl _
  | cons s ss ih => exact (insertSorted_perm s (sortKeys ss)).trans (ih.cons s)

theorem insertSorted_sorted (s : String) (l : List String)
    (h : List.Sorted StrLe l) : List.Sorted StrLe (insertSorted s l) := by
  induction l with
  | nil => simp [insertSorted]
  | cons t ts ih =>
    rw [List.sorted_cons] at h
    by_cases hst : strLeB s t = true
    · simp only [insertSorted, hst, if_true]
      rw [List.sorted_cons]
      refine ⟨?_, ?_⟩
      · intro u hu
        rcases List.mem_cons.mp hu with rfl | hu
        · exact hst
        · exact lexLe_trans _ _ _ hst (h.1 u hu)
      · rw [List.sorted_cons]; exact h
    · simp only [insertSorted, hst, Bool.false_eq_true, if_false]
      rw [List.sorted_cons]
      refine ⟨?_, ih h.2⟩
      intro u hu
      have hts : StrLe t s := by
        rcases lexLe_total s.data t.data with htot | htot
        · exact absurd htot hst
        · exact htot
      rcases List.mem_cons.mp ((insertSorted_perm s ts).mem_iff.mp hu) with rfl | hu
      · exact hts
      · exact h.1 u hu

theorem sortKeys_sorted (l : List String) : List.Sorted StrLe (sortKeys l) := by
  induction l with
  | nil => simp [sortKeys, List.Sorted]
  | cons s ss ih => exact insertSorted_sorted s (sortKeys ss) ih

/-- The JS default sort is a function of the multiset of keys: permuted
inputs sort to the same list. -/
theorem sortKeys_congr (l1 l2 : List String) (h : List.Perm l1 l2) :
    sortKeys l1 = sortKeys l2 :=
  List.eq_of_perm_of_sorted
    ((sortKeys_perm l1).trans (h.trans (sortKeys_perm l2).symm))
    (sortKeys_sorted l1) (sortKeys_sorted l2)

/-- `Object.keys` of a context key value: its own keys in insertion order
(the signing code only ever applies this to the record object). -/
def topKeysOf : Jval → List String
  | .jobj fs => keysOf fs
  | _ => []

/-- The replacer array `Object.keys(contextKey).sort()` built at
`crypto.ts:36` and `crypto.ts:60`: the record's own keys sorted
lexicographically (the JS default string sort). -/
def contextKeySortedKeys (j : Jval) : List String :=
  sortKeys (topKeysOf j)

/-- The serialization both `signContextKey` and `verifyContextKey` apply to
the record: `JSON.stringify(contextKey, Object.keys(contextKey).sort())`. -/
def serializeContextKey (j : Jval) : String :=
  renderVal (filterVal (contextKeySortedKeys j) j)

example : serializeContextKey (.jobj (.cons "b" (.jstr "x") (.cons "a" (.jbool true) .nil)))
    = "\x7b\"a\":true,\"b\":\"x\"\x7d" := by decide

example : sortKeys ["b", "a"] = ["a", "b"] := by decide

/-- Thrown JavaScript exceptions relevant to the crypto module: `TypeError`s
from tweetnacl / tweetnacl-util, and the opaque `OperationError` DOMException
thrown by `crypto.subtle.decrypt` on an AES-GCM tag mismatch (the
AuthenticationError of the specification's taxonomy). -/
inductive JsError where
  | typeError (msg : String) : JsError
  | operationError : JsError
deriving DecidableEq

/-- What a base64 string in a signature or public-key position decodes to:
either raw bytes, or an idealized Ed25519 detached signature.  A detached
signature is 64 bytes on the wire; symbolically it attests to exactly the
message string (UTF-8 encoding is injective) and the public key of the
secret key that produced it. -/
inductive SigPayload where
  | bytes (bs : List Nat) : SigPayload
  | sig (msg : String) (pk : List Nat) : SigPayload
deriving DecidableEq

/-- A JS string holding either a valid base64 encoding of a payload or
arbitrary malformed text (tweetnacl-util throws `TypeError('invalid
encoding')` when decoding the latter). -/
inductive SigB64 where
  | valid (p : SigPayload) : SigB64
  | malformed (s : String) : SigB64
deriving DecidableEq

/-- tweetnacl-util `decodeBase64` on a signature/public-key string. -/
def decodeBase64Sig : SigB64 → Except JsError SigPayload
  | .valid p => .ok p
  | .malformed _ => .error (.typeError "invalid encoding")

/-- Byte length of a decoded payload (a detached Ed25519 signature is always
64 bytes long). -/
def sigPayloadLength : SigPayload → Nat
  | .bytes bs => bs.length
  | .sig _ _ => 64

/-- Raw bytes of a decoded payload; an idealized signature blob reused as raw
key material never occurs in this development, and is given an arbitrary
byte reading. -/
def sigPayloadBytes : SigPayload → List Nat
  | .bytes bs => bs
  | .sig _ pk => pk

/-- The `SignedContextKey` structure of `types.ts`: the record (`data`, a JS
value), a base64 detached signature and a base64 public key. -/
structure SignedCK where
  data : Jval
  signature : SigB64
  public_key : SigB64
deriving DecidableEq

/-- `nacl.sign.keyPair.fromSecretKey`: requires a 64-byte secret key and
returns the public key stored in its last 32 bytes. -/
def fromSecretKeyPub (sk : List Nat) : Except JsError (List Nat) :=
  if sk.length = 64 then .ok (sk.drop 32)
  else .error (.typeError "bad secret key size")

/-- A JavaScript value in message position for the tweetnacl calls: either a
genuine `Uint8Array` (carrying the UTF-8 bytes of a string, which UTF-8
injectivity lets us identify with the string) or a JS string.  tweetnacl's
`checkArrayTypes` guard throws on anything that is not a `Uint8Array`. -/
inductive JsMessage where
  | uint8 (s : String) : JsMessage
  | jsString (s : String) : JsMessage
deriving DecidableEq

/-- tweetnacl-util's `encodeUTF8` applied to a string — what crypto.ts line
37 and line 61 do to the serialized record.  `encodeUTF8` is the
bytes-to-string direction of the codec (`decodeUTF8`, imported but unused,
is string-to-bytes), so on a string argument it returns a JS string — each
`String.fromCharCode(arr[i])` coerces a one-character string to `NaN`,
yielding a NUL character — and never a `Uint8Array`. -/
def encodeUTF8OnString (s : String) : JsMessage :=
  .jsString (String.mk (s.data.map (fun _ => Char.ofNat 0)))

/-- `nacl.sign.detached`: `checkArrayTypes` first throws a `TypeError` unless
the message is a `Uint8Array` — the path every call from crypto.ts takes,
since the message it receives is a string; then the 64-byte secret key
length is checked, and the detached signature over a byte message is
idealized as an attestation to the message and the secret key's public
half. -/
def naclSignDetached (msg : JsMessage) (sk : List Nat) : Except JsError SigPayload :=
  match msg with
  | .jsString _ => .error (.typeError "unexpected type, use Uint8Array")
  | .uint8 m =>
    if sk.length = 64 then .ok (.sig m (sk.drop 32))
    else .error (.typeError "bad secret key size")

/-- `nacl.sign.detached.verify`: `checkArrayTypes` first throws a
`TypeError` unless the message is a `Uint8Array` — again the path every
call from crypto.ts takes; then tweetnacl's size checks are replayed
(`bad signature size`, `bad public key size`, thrown in that order) and the
check succeeds exactly on a signature attesting to this byte message under
this public key; 64 raw bytes that are not a produced signature never
verify. -/
def naclVerifyDetached (msg : JsMessage) (sigp pkp : SigPayload) :
    Except JsError Bool :=
  match msg with
  | .jsString _ => .error (.typeError "unexpected type, use Uint8Array")
  | .uint8 m =>
    if sigPayloadLength sigp ≠ 64 then .error (.typeError "bad signature size")
    else if sigPayloadLength pkp ≠ 32 then .error (.typeError "bad public key size")
    else
      match sigp, pkp with
      | .sig m2 k, .bytes pkb => .ok (decide (m2 = m ∧ k = pkb))
      | _, _ => .ok false

/-- `signContextKey` (crypto.ts lines 28-47): decode the base64 private key,
rebuild the key pair (which checks the 64-byte length), serialize the record
with `JSON.stringify(contextKey, Object.keys(contextKey).sort())`, compute
`const message = encodeUTF8(serialized)` — a JS string, since `encodeUTF8`
is the bytes-to-string direction — and hand it to `nacl.sign.detached`,
which therefore throws `TypeError "unexpected type, use Uint8Array"` on
every call that reaches it.  Thrown exceptions are surfaced as
`Except.error`; the function never returns an envelope. -/
def signContextKey (contextKey : Jval) (privateKey : SigB64) :
    Except JsError SignedCK := do
  let privateKeyBytes := sigPayloadBytes (← decodeBase64Sig privateKey)
  let keyPairPub ← fromSecretKeyPub privateKeyBytes
  let serialized := serializeContextKey contextKey
  let message := encodeUTF8OnString serialized
  let signature ← naclSignDetached message privateKeyBytes
  pure { data := contextKey,
         signature := .valid signature,
         public_key := .valid (.bytes keyPairPub) }

/-- Body of `verifyContextKey` before the catch-all: decode the public key,
decode the signature, re-serialize `signedKey.data` the same way the signing
path does, compute the same `encodeUTF8(serialized)` string, and call
`nacl.sign.detached.verify`, whose type guard throws on the string
message. -/
def verifyAux (signedKey : SignedCK) : Except JsError Bool := do
  let publicKey ← decodeBase64Sig signedKey.public_key
  let signature ← decodeBase64Sig signedKey.signature
  let serialized := serializeContextKey signedKey.data
  naclVerifyDetached (encodeUTF8OnString serialized) signature publicKey

/-- `verifyContextKey` (crypto.ts lines 54-67): the verification body wrapped
in `try/catch`, every thrown exception becoming the return value `false`. -/
def verifyContextKey (signedKey : SignedCK) : Bool :=
  match verifyAux signedKey with
  | .ok b => b
  | .error _ => false

/-- A symmetric key produced by WebCrypto `deriveKey`, recording the
algorithm, hash and inputs of the derivation that was actually executed
(PBKDF2 is deterministic in these, and idealized as collision-free). -/
structure DerivedKey where
  algorithm : String
  hash : String
  password : String
  salt : List Nat
  iterations : Nat
deriving DecidableEq

/-- `deriveKey` (crypto.ts lines 76-106): PBKDF2 with SHA-256 over the
UTF-8 password and the given salt and iteration count, producing a 256-bit
AES-GCM key. -/
def deriveKey (password : String) (salt : List Nat) (iterations : Nat) :
    DerivedKey :=
  { algorithm := "PBKDF2", hash := "SHA-256",
    password := password, salt := salt, iterations := iterations }

/-- An AES-GCM ciphertext, idealized as authenticating the exact key and IV
it was sealed with and carrying the sealed envelope.  (The JS code seals the
string `JSON.stringify(signedKey)`; the model carries the envelope value and
applies the stringify/parse round trip effect at open time, where
`JSON.parse` runs.) -/
structure GcmCiphertext where
  key : DerivedKey
  iv : List Nat
  plaintext : SignedCK
deriving DecidableEq

/-- What a base64 string in an encrypted-blob position decodes to: raw bytes
(salt, IV) or an AES-GCM ciphertext. -/
inductive BlobPayload where
  | bytes (bs : List Nat) : BlobPayload
  | cipher (ct : GcmCiphertext) : BlobPayload
deriving DecidableEq

/-- A JS string holding either a valid base64 encoding of a blob payload or
malformed text. -/
inductive BlobB64 where
  | valid (p : BlobPayload) : BlobB64
  | malformed (s : String) : BlobB64
deriving DecidableEq

/-- tweetnacl-util `decodeBase64` on a blob field. -/
def decodeBase64Blob : BlobB64 → Except JsError BlobPayload
  | .valid p => .ok p
  | .malformed _ => .error (.typeError "invalid encoding")

/-- Raw byte reading of a blob payload (a ciphertext reused as salt or IV
never occurs in this development). -/
def blobPayloadBytes : BlobPayload → List Nat
  | .bytes bs => bs
  | .cipher _ => []

/-- `crypto.subtle.decrypt` with AES-GCM: authenticated decryption succeeds
exactly when key and IV match the sealing ones; any mismatch (wrong password,
corrupted ciphertext, bytes that were never sealed) throws the opaque
`OperationError`. -/
def aesGcmDecrypt (key : DerivedKey) (iv : List Nat) (data : BlobPayload) :
    Except JsError SignedCK :=
  match data with
  | .cipher ct =>
    if ct.key = key ∧ ct.iv = iv then .ok ct.plaintext
    else .error .operationError
  | .bytes _ => .error .operationError

/-- The `kdf_params` sub-record of `EncryptedContextKey` (types.ts); the
algorithm is kept as a string so blobs with other labels are expressible. -/
structure KdfParams where
  algorithm : String
  iterations : Nat
  memory : Nat
  parallelism : Nat
deriving DecidableEq

/-- The `EncryptedContextKey` structure of `types.ts`. -/
structure EncryptedCK where
  encrypted_data : BlobB64
  iv : BlobB64
  salt : BlobB64
  kdf_params : KdfParams
deriving DecidableEq

/-- `encryptContextKey` (crypto.ts lines 114-148): fresh 32-byte salt and
12-byte IV (modeled as explicit arguments, the outputs of
`crypto.getRandomValues`), PBKDF2 key derivation with 100000 iterations,
AES-GCM sealing of `JSON.stringify(signedKey)`, and a blob whose
`kdf_params` are labeled `argon2id`/65536/1 even though the executed KDF is
PBKDF2-SHA-256 (the source comments: labeling for future upgrade). -/
def encryptContextKey (signedKey : SignedCK) (password : String)
    (salt iv : List Nat) : EncryptedCK :=
  let iterations := 100000
  let key := deriveKey password salt iterations
  let encrypted : GcmCiphertext :=
    { key := key, iv := iv, plaintext := signedKey }
  { encrypted_data := .valid (.cipher encrypted),
    iv := .valid (.bytes iv),
    salt := .valid (.bytes salt),
    kdf_params :=
      { algorithm := "argon2id", iterations := iterations,
        memory := 65536, parallelism := 1 } }

mutual

/-- Effect of `JSON.parse(JSON.stringify(v))` on a JS value: everything is
preserved except that non-finite numbers serialize as `null` (ECMA-262
SerializeJSONProperty) and therefore parse back as `null`. -/
def jsonReparse : Jval → Jval
  | .jnull => .jnull
  | .jbool b => .jbool b
  | .jnum .nan => .jnull
  | .jnum (.int n) => .jnum (.int n)
  | .jstr s => .jstr s
  | .jarr xs => .jarr (jsonReparseArr xs)
  | .jobj fs => .jobj (jsonReparseObj fs)

/-- Elementwise stringify/parse round trip on an array. -/
def jsonReparseArr : JArr → JArr
  | .nil => .nil
  | .cons v t => .cons (jsonReparse v) (jsonReparseArr t)

/-- Fieldwise stringify/parse round trip on an object (JS objects never hold
two fields with the same key, so the last-wins rule of `JSON.parse` on
duplicate keys is vacuous). -/
def jsonReparseObj : JObj → JObj
  | .nil => .nil
  | .cons k v t => .cons k (jsonReparse v) (jsonReparseObj t)

end

/-- The stringify/parse round trip on the whole envelope: the two base64
string fields are JSON-faithful, the record goes through `jsonReparse`. -/
def jsonParseOfStringify (sk : SignedCK) : SignedCK :=
  { data := jsonReparse sk.data,
    signature := sk.signature,
    public_key := sk.public_key }

/-- `decryptContextKey` (crypto.ts lines 156-179): decode salt, IV and
ciphertext, re-derive the key from the password, the decoded salt and the
blob's recorded `kdf_params.iterations` (nothing else of `kdf_params` is
read), AES-GCM-open, and `JSON.parse` the decrypted serialization. -/
def decryptContextKey (encryptedKey : EncryptedCK) (password : String) :
    Except JsError SignedCK := do
  let salt ← decodeBase64Blob encryptedKey.salt
  let iv ← decodeBase64Blob encryptedKey.iv
  let encryptedData ← decodeBase64Blob encryptedKey.encrypted_data
  let key := deriveKey password (blobPayloadBytes salt)
      encryptedKey.kdf_params.iterations
  let decrypted ← aesGcmDecrypt key (blobPayloadBytes iv) encryptedData
  pure (jsonParseOfStringify decrypted)

/-- The derivation key a sealed blob was actually encrypted under, read off
the idealized ciphertext. -/
def sealKeyUsed (blob : EncryptedCK) : Option DerivedKey :=
  match blob.encrypted_data with
  | .valid (.cipher ct) => some ct.key
  | _ => none

/-- Duplicate-freedom of a key list. -/
def nodupKeys : List String → Bool
  | [] => true
  | k :: t => !(t.contains k) && nodupKeys t

mutual

/-- A JS value every part of which survives the JSON round trip: no
non-finite numbers anywhere, and no duplicate keys in any object (JS
objects never have duplicate keys; values built by `JSON.parse` satisfy
this by construction). -/
def jsFaithful : Jval → Bool
  | .jnull => true
  | .jbool _ => true
  | .jnum .nan => false
  | .jnum (.int _) => true
  | .jstr _ => true
  | .jarr xs => jsFaithfulArr xs
  | .jobj fs => nodupKeys (keysOf fs) && jsFaithfulObj fs

/-- Faithfulness of every array element. -/
def jsFaithfulArr : JArr → Bool
  | .nil => true
  | .cons v t => jsFaithful v && jsFaithfulArr t

/-- Faithfulness of every field value. -/
def jsFaithfulObj : JObj → Bool
  | .nil => true
  | .cons _ v t => jsFaithful v && jsFaithfulObj t

end

mutual

/-- Whether a value contains a non-finite number anywhere. -/
def hasNonFinite : Jval → Bool
  | .jnum .nan => true
  | .jarr xs => hasNonFiniteArr xs
  | .jobj fs => hasNonFiniteObj fs
  | _ => false

/-- Non-finite search in arrays. -/
def hasNonFiniteArr : JArr → Bool
  | .nil => false
  | .cons v t => hasNonFinite v || hasNonFiniteArr t

/-- Non-finite search in objects. -/
def hasNonFiniteObj : JObj → Bool
  | .nil => false
  | .cons _ v t => hasNonFinite v || hasNonFiniteObj t

end

/-- Length of a JS array. -/
def jarrLen : JArr → Nat
  | .nil => 0
  | .cons _ t => 1 + jarrLen t

/-- Whether every element of a JS array is a string. -/
def allStrings : JArr → Bool
  | .nil => true
  | .cons (.jstr _) t => allStrings t
  | .cons _ _ => false

/-- Conjunction of a check over all elements of a JS array. -/
def allArr (p : Jval → Bool) : JArr → Bool
  | .nil => true
  | .cons v t => p v && allArr p t

/-- zod `z.string()` field check. -/
def strField (k : String) (fs : JObj) : Bool :=
  match lookupJ k fs with
  | some (.jstr _) => true
  | _ => false

/-- zod `z.string().min(lo)` field check (string length counts characters;
all strings in this development are ASCII, where JS `.length` agrees). -/
def strFieldMin (k : String) (fs : JObj) (lo : Nat) : Bool :=
  match lookupJ k fs with
  | some (.jstr s) => decide (lo ≤ s.length)
  | _ => false

/-- zod `z.string().min(lo).max(hi)` field check. -/
def strFieldMinMax (k : String) (fs : JObj) (lo hi : Nat) : Bool :=
  match lookupJ k fs with
  | some (.jstr s) => decide (lo ≤ s.length) && decide (s.length ≤ hi)
  | _ => false

/-- zod `z.enum([...])` field check. -/
def enumField (k : String) (fs : JObj) (vals : List String) : Bool :=
  match lookupJ k fs with
  | some (.jstr s) => vals.contains s
  | _ => false

/-- zod `z.boolean()` field check. -/
def boolField (k : String) (fs : JObj) : Bool :=
  match lookupJ k fs with
  | some (.jbool _) => true
  | _ => false

/-- zod `z.record(z.unknown())` field check. -/
def recordField (k : String) (fs : JObj) : Bool :=
  match lookupJ k fs with
  | some (.jobj _) => true
  | _ => false

/-- zod `z.string().optional()` field check. -/
def optStrField (k : String) (fs : JObj) : Bool :=
  match lookupJ k fs with
  | none => true
  | some (.jstr _) => true
  | some _ => false

/-- zod `z.array(z.string()).optional()` field check. -/
def optStrArrField (k : String) (fs : JObj) : Bool :=
  match lookupJ k fs with
  | none => true
  | some (.jarr xs) => allStrings xs
  | some _ => false

/-- `UserProfileSchema` of `validation.ts`. -/
def validProfileJ (j : Jval) : Bool :=
  match j with
  | .jobj fs =>
    strFieldMinMax "display_name" fs 1 100 &&
    strFieldMinMax "tone" fs 1 500 &&
    (match lookupJ "domains" fs with
     | some (.jarr xs) => allStrings xs && decide (1 ≤ jarrLen xs)
     | _ => false)
  | _ => false

/-- `PoliciesSchema` of `validation.ts`. -/
def validPoliciesJ (j : Jval) : Bool :=
  match j with
  | .jobj fs =>
    boolField "allow_writeback" fs &&
    enumField "persistence" fs ["ephemeral", "session", "permanent"] &&
    enumField "pii_handling" fs ["strict", "moderate", "permissive"]
  | _ => false

/-- `DataSourceSchema` of `validation.ts`. -/
def validDataSourceJ (j : Jval) : Bool :=
  match j with
  | .jobj fs =>
    strField "id" fs &&
    strFieldMin "name" fs 1 &&
    enumField "type" fs ["google_drive", "notion", "dropbox", "local_file"] &&
    recordField "config" fs &&
    optStrField "last_accessed" fs
  | _ => false

/-- `MemoryEntrySchema` of `validation.ts`. -/
def validMemoryEntryJ (j : Jval) : Bool :=
  match j with
  | .jobj fs =>
    strField "id" fs &&
    strFieldMin "content" fs 1 &&
    strField "created_at" fs &&
    optStrArrField "tags" fs &&
    optStrField "source" fs
  | _ => false

/-- `ContextKeySchema` of `validation.ts`: a valid context record.  zod's
default object mode tolerates unknown extra keys, so none of these checks
restricts the key set. -/
def validContextRecord (j : Jval) : Bool :=
  match j with
  | .jobj fs =>
    strField "version" fs &&
    strField "id" fs &&
    strField "created_at" fs &&
    strField "updated_at" fs &&
    (match lookupJ "profile" fs with
     | some pj => validProfileJ pj
     | none => false) &&
    (match lookupJ "policies" fs with
     | some pj => validPoliciesJ pj
     | none => false) &&
    (match lookupJ "data_sources" fs with
     | some (.jarr xs) => allArr validDataSourceJ xs
     | _ => false) &&
    (match lookupJ "memories" fs with
     | some (.jarr xs) => allArr validMemoryEntryJ xs
     | _ => false)
  | _ => false

/-- The `UserProfile` interface of `types.ts`. -/
structure UserProfile where
  display_name : String
  tone : String
  domains : List String
deriving DecidableEq

/-- The `Policies` interface of `types.ts` (the two enums are kept as their
string literals). -/
structure Policies where
  allow_writeback : Bool
  persistence : String
  pii_handling : String
deriving DecidableEq

/-- The `DataSource` interface of `types.ts` (`config` is an arbitrary JS
record; the type enum is kept as its string literal). -/
structure DataSource where
  id : String
  name : String
  type : String
  config : JObj
  last_accessed : Option String
deriving DecidableEq

/-- The `MemoryEntry` interface of `types.ts`. -/
structure MemoryEntry where
  id : String
  content : String
  created_at : String
  tags : Option (List String)
  source : Option String
deriving DecidableEq

/-- The `ContextKey` interface of `types.ts`. -/
structure ContextKey where
  version : String
  id : String
  created_at : String
  updated_at : String
  profile : UserProfile
  policies : Policies
  data_sources : List DataSource
  memories : List MemoryEntry
deriving DecidableEq

/-- JS array of strings. -/
def strArrOf : List String → JArr
  | [] => .nil
  | s :: t => .cons (.jstr s) (strArrOf t)

/-- Permutation check on key lists, via the canonical sorted form. -/
def keysPermB (l1 l2 : List String) : Bool := sortKeys l1 == sortKeys l2

theorem perm_of_keysPermB (l1 l2 : List String) (h : keysPermB l1 l2 = true) :
    List.Perm l1 l2 := by
  have he : sortKeys l1 = sortKeys l2 := by
    simpa [keysPermB] using h
  exact (sortKeys_perm l1).symm.trans (he ▸ sortKeys_perm l2)

/-- Whether a JS object field is an exact string field. -/
def fieldIs (k : String) (fs : JObj) (v : Jval) : Bool :=
  lookupJ k fs == some v

/-- Optional string field of a typed record: absent when the typed side is
`none`, bound to exactly the string otherwise. -/
def reprOptStr (k : String) (fs : JObj) (o : Option String) : Bool :=
  match o with
  | none => !((keysOf fs).contains k)
  | some s => fieldIs k fs (.jstr s)

/-- A JS value representing a typed `UserProfile`, with any key insertion
order. -/
def reprProfile (j : Jval) (p : UserProfile) : Bool :=
  match j with
  | .jobj fs =>
    nodupKeys (keysOf fs) &&
    (keysOf fs).all (fun k => ["display_name", "tone", "domains"].contains k) &&
    fieldIs "display_name" fs (.jstr p.display_name) &&
    fieldIs "tone" fs (.jstr p.tone) &&
    fieldIs "domains" fs (.jarr (strArrOf p.domains))
  | _ => false

/-- A JS value representing a typed `Policies`, with any key insertion
order. -/
def reprPolicies (j : Jval) (p : Policies) : Bool :=
  match j with
  | .jobj fs =>
    nodupKeys (keysOf fs) &&
    (keysOf fs).all
      (fun k => ["allow_writeback", "persistence", "pii_handling"].contains k) &&
    fieldIs "allow_writeback" fs (.jbool p.allow_writeback) &&
    fieldIs "persistence" fs (.jstr p.persistence) &&
    fieldIs "pii_handling" fs (.jstr p.pii_handling)
  | _ => false

/-- Field check through a lookup: the field must be present and its value
must satisfy the check. -/
def fieldRepr (k : String) (fs : JObj) (p : Jval → Bool) : Bool :=
  match lookupJ k fs with
  | some v => p v
  | none => false

/-- Value check for an array position. -/
def arrRepr (p : JArr → Bool) : Jval → Bool
  | .jarr xs => p xs
  | _ => false

/-- All fields of the first object look up to the same value in the second
(with duplicate-free keys and equal key multisets this makes the two objects
equal up to field order). -/
def allKeysAgree : JObj → JObj → Bool
  | .nil, _ => true
  | .cons k v t, target => (lookupJ k target == some v) && allKeysAgree t target

/-- A JS value that is an object equal to `target` up to field order. -/
def objAgrees (target : JObj) : Jval → Bool
  | .jobj cfs => keysPermB (keysOf cfs) (keysOf target) && allKeysAgree cfs target
  | _ => false

/-- A JS value representing a typed `DataSource`, with any key insertion
order (the `config` record is likewise compared up to field order). -/
def reprDataSource (j : Jval) (d : DataSource) : Bool :=
  match j with
  | .jobj fs =>
    nodupKeys (keysOf fs) &&
    (keysOf fs).all
      (fun k => (["id", "name", "type", "config", "last_accessed"]).contains k) &&
    fieldIs "id" fs (.jstr d.id) &&
    fieldIs "name" fs (.jstr d.name) &&
    fieldIs "type" fs (.jstr d.type) &&
    fieldRepr "config" fs (objAgrees d.config) &&
    reprOptStr "last_accessed" fs d.last_accessed
  | _ => false

/-- A JS value representing a typed `MemoryEntry`, with any key insertion
order. -/
def reprMemoryEntry (j : Jval) (m : MemoryEntry) : Bool :=
  match j with
  | .jobj fs =>
    nodupKeys (keysOf fs) &&
    (keysOf fs).all
      (fun k => (["id", "content", "created_at", "tags", "source"]).contains k) &&
    fieldIs "id" fs (.jstr m.id) &&
    fieldIs "content" fs (.jstr m.content) &&
    fieldIs "created_at" fs (.jstr m.created_at) &&
    (match m.tags with
     | none => !((keysOf fs).contains "tags")
     | some ts => fieldIs "tags" fs (.jarr (strArrOf ts))) &&
    reprOptStr "source" fs m.source
  | _ => false

/-- Pointwise representation of a list of data sources. -/
def reprDSArr : JArr → List DataSource → Bool
  | .nil, [] => true
  | .cons j t, d :: ds => reprDataSource j d && reprDSArr t ds
  | _, _ => false

/-- Pointwise representation of a list of memory entries. -/
def reprMEArr : JArr → List MemoryEntry → Bool
  | .nil, [] => true
  | .cons j t, m :: ms => reprMemoryEntry j m && reprMEArr t ms
  | _, _ => false

/-- A JS value representing a typed `ContextKey`, with any key insertion
order at the record level and inside every sub-object: the formal reading of
two records being field-for-field equal while constructed in different key
insertion orders. -/
def reprCK (j : Jval) (r : ContextKey) : Bool :=
  match j with
  | .jobj fs =>
    keysPermB (keysOf fs)
      ["version", "id", "created_at", "updated_at", "profile", "policies",
       "data_sources", "memories"] &&
    fieldIs "version" fs (.jstr r.version) &&
    fieldIs "id" fs (.jstr r.id) &&
    fieldIs "created_at" fs (.jstr r.created_at) &&
    fieldIs "updated_at" fs (.jstr r.updated_at) &&
    fieldRepr "profile" fs (fun pj => reprProfile pj r.profile) &&
    fieldRepr "policies" fs (fun pj => reprPolicies pj r.policies) &&
    fieldRepr "data_sources" fs (arrRepr (fun xs => reprDSArr xs r.data_sources)) &&
    fieldRepr "memories" fs (arrRepr (fun xs => reprMEArr xs r.memories))
  | _ => false

/-- Convenience builder for JS objects. -/
def objOf : List (String × Jval) → JObj
  | [] => .nil
  | (k, v) :: t => .cons k v (objOf t)

/-- Convenience builder for JS arrays. -/
def arrOf : List Jval → JArr
  | [] => .nil
  | v :: t => .cons v (arrOf t)

/-- A fixed 64-byte Ed25519 secret key (seed plus public half), standing for
an output of `generateKeyPair`. -/
def skSample : List Nat := List.replicate 64 7

/-- The public half stored in the last 32 bytes of `skSample`. -/
def pubSample : List Nat := List.replicate 32 7

/-- A fixed 32-byte salt, standing for an output of
`crypto.getRandomValues(new Uint8Array(32))`. -/
def saltSample : List Nat := List.replicate 32 1

/-- A fixed 12-byte IV, standing for an output of
`crypto.getRandomValues(new Uint8Array(12))`. -/
def ivSample : List Nat := List.replicate 12 2

/-- The sample secret key as the base64 string handed to `signContextKey`. -/
def keySampleB : SigB64 := .valid (.bytes skSample)

/-- A schema-valid context record (the concrete scenario of the spec:
display name Ana, concise tone, domain ml), with one memory entry and a
parameterized display name and data-source list. -/
def rBase (dn : String) (ds : JArr) : Jval :=
  .jobj (objOf
    [("version", .jstr "1.0"),
     ("id", .jstr "k1"),
     ("created_at", .jstr "2024-01-01T00:00:00Z"),
     ("updated_at", .jstr "2024-01-02T00:00:00Z"),
     ("profile", .jobj (objOf
        [("display_name", .jstr dn),
         ("tone", .jstr "concise"),
         ("domains", .jarr (arrOf [.jstr "ml"]))])),
     ("policies", .jobj (objOf
        [("allow_writeback", .jbool true),
         ("persistence", .jstr "session"),
         ("pii_handling", .jstr "strict")])),
     ("data_sources", .jarr ds),
     ("memories", .jarr (arrOf
        [.jobj (objOf
           [("id", .jstr "m1"),
            ("content", .jstr "likes brief answers"),
            ("created_at", .jstr "2024-01-01T01:00:00Z")])]))])

/-- The sample record. -/
def rSampleJ : Jval := rBase "Ana" .nil

/-- The sample record with one nested byte changed after signing:
`profile.display_name` mutated from Ana to Bna. -/
def rTamperedJ : Jval := rBase "Bna" .nil

/-- A data source whose `config` record holds a `NaN` (allowed by
`DataSourceSchema`, whose `config` is `z.record(z.unknown())`). -/
def dsNaN : Jval :=
  .jobj (objOf
    [("id", .jstr "d1"),
     ("name", .jstr "notes"),
     ("type", .jstr "notion"),
     ("config", .jobj (objOf [("weight", .jnum .nan)]))])

/-- A schema-valid record containing a value JSON cannot round-trip. -/
def rNaNJ : Jval := rBase "Ana" (arrOf [dsNaN])

/-- A concrete `SignedContextKey` value: the envelope signing the sample
record would produce were the message passed as `Uint8Array` bytes.  The
real `signContextKey` never constructs it (it throws first); the sealing
layer accepts any envelope value, so this value feeds the encryption-side
theorems. -/
def envSample : SignedCK :=
  { data := rSampleJ,
    signature := .valid (.sig (serializeContextKey rSampleJ) pubSample),
    public_key := .valid (.bytes pubSample) }

example : validContextRecord rSampleJ = true := by decide
example : validContextRecord rNaNJ = true := by decide
example : jsFaithful rSampleJ = true := by decide
example : jsFaithful rNaNJ = false := by decide
example : signContextKey rSampleJ keySampleB
    = .error (.typeError "unexpected type, use Uint8Array") := rfl
example : serializeContextKey rSampleJ =
    "\x7b\"created_at\":\"2024-01-01T00:00:00Z\",\"data_sources\":[],\"id\":\"k1\"," ++
    "\"memories\":[\x7b\"created_at\":\"2024-01-01T01:00:00Z\",\"id\":\"m1\"\x7d]," ++
    "\"policies\":\x7b\x7d,\"profile\":\x7b\x7d,\"updated_at\":\"2024-01-02T00:00:00Z\"," ++
    "\"version\":\"1.0\"\x7d" := by decide
example : serializeContextKey rTamperedJ = serializeContextKey rSampleJ := by decide
example : verifyContextKey envSample = false := by decide

theorem lookup_filterObj (W : List String) (k : String) (fs : JObj) :
    lookupJ k (filterObj W fs) = Option.map (filterVal W) (lookupJ k fs) :=
  match fs with
  | .nil => rfl
  | .cons k1 v t => by
    simp only [filterObj, lookupJ]
    by_cases h : k1 = k
    · simp [h]
    · simp [h, lookup_filterObj W k t]

theorem lookup_none_of_not_mem (k : String) (fs : JObj) (h : ¬ k ∈ keysOf fs) :
    lookupJ k fs = none :=
  match fs with
  | .nil => rfl
  | .cons k1 v t => by
    simp only [keysOf, List.mem_cons] at h
    push_neg at h
    simp only [lookupJ]
    rw [if_neg (fun he => h.1 he.symm), lookup_none_of_not_mem k t h.2]

theorem reorder_nil_of_none (W : List String) (fs : JObj)
    (h : ∀ k ∈ W, lookupJ k fs = none) : reorderFields W fs = .nil := by
  induction W with
  | nil => rfl
  | cons k ks ih =>
    simp only [reorderFields]
    rw [h k (by simp)]
    exact ih (fun k2 hk2 => h k2 (by simp [hk2]))

mutual

theorem jsonReparse_self (v : Jval) (h : jsFaithful v = true) : jsonReparse v = v :=
  match v, h with
  | .jnull, _ => rfl
  | .jbool _, _ => rfl
  | .jnum .nan, h => Bool.noConfusion h
  | .jnum (.int _), _ => rfl
  | .jstr _, _ => rfl
  | .jarr xs, h =>
      congrArg Jval.jarr (jsonReparseArr_self xs (by simpa [jsFaithful] using h))
  | .jobj fs, h =>
      congrArg Jval.jobj (jsonReparseObj_self fs (by
        simp only [jsFaithful, Bool.and_eq_true] at h
        exact h.2))

theorem jsonReparseArr_self (xs : JArr) (h : jsFaithfulArr xs = true) :
    jsonReparseArr xs = xs :=
  match xs, h with
  | .nil, _ => rfl
  | .cons v t, h => by
      simp only [jsFaithfulArr, Bool.and_eq_true] at h
      simp only [jsonReparseArr]
      rw [jsonReparse_self v h.1, jsonReparseArr_self t h.2]

theorem jsonReparseObj_self (fs : JObj) (h : jsFaithfulObj fs = true) :
    jsonReparseObj fs = fs :=
  match fs, h with
  | .nil, _ => rfl
  | .cons k v t, h => by
      simp only [jsFaithfulObj, Bool.and_eq_true] at h
      simp only [jsonReparseObj]
      rw [jsonReparse_self v h.1, jsonReparseObj_self t h.2]

end

/-- The sorted key list of every context record: the concrete replacer array
`Object.keys(contextKey).sort()` computes for a record with the eight
`ContextKey` fields. -/
def ckKeyList : List String :=
  ["created_at", "data_sources", "id", "memories", "policies", "profile",
   "updated_at", "version"]

/-- What the replacer filter leaves of a data source: only its `id` (all
other fields, `name`, `type`, `config`, `last_accessed`, are dropped because
their keys are not top-level record keys). -/
def skelDS (d : DataSource) : Jval := .jobj (.cons "id" (.jstr d.id) .nil)

/-- Filtered data-source list. -/
def skelDSArr : List DataSource → JArr
  | [] => .nil
  | d :: ds => .cons (skelDS d) (skelDSArr ds)

/-- What the replacer filter leaves of a memory entry: only `created_at` and
`id` (in replacer order); the `content` is dropped. -/
def skelME (m : MemoryEntry) : Jval :=
  .jobj (.cons "created_at" (.jstr m.created_at) (.cons "id" (.jstr m.id) .nil))

/-- Filtered memory list. -/
def skelMEArr : List MemoryEntry → JArr
  | [] => .nil
  | m :: ms => .cons (skelME m) (skelMEArr ms)

/-- The value actually serialized and signed for a record representing the
typed `r`: sorted top-level keys, `profile` and `policies` reduced to empty
objects, data sources reduced to their ids, memories to timestamps and ids. -/
def skelCK (r : ContextKey) : Jval :=
  .jobj (.cons "created_at" (.jstr r.created_at)
        (.cons "data_sources" (.jarr (skelDSArr r.data_sources))
        (.cons "id" (.jstr r.id)
        (.cons "memories" (.jarr (skelMEArr r.memories))
        (.cons "policies" (.jobj .nil)
        (.cons "profile" (.jobj .nil)
        (.cons "updated_at" (.jstr r.updated_at)
        (.cons "version" (.jstr r.version) .nil))))))))

theorem subset_of_allContains (fs allowed : List String)
    (h : fs.all (fun k => allowed.contains k) = true) : ∀ k ∈ fs, k ∈ allowed := by
  intro k hk
  have := List.all_eq_true.mp h k hk
  simpa using this

theorem filter_profile (pj : Jval) (p : UserProfile)
    (h : reprProfile pj p = true) : filterVal ckKeyList pj = .jobj .nil := by
  cases pj with
  | jobj pfs =>
    simp only [reprProfile, Bool.and_eq_true] at h
    obtain ⟨⟨⟨⟨_, hsub⟩, _⟩, _⟩, _⟩ := h
    have hs := subset_of_allContains _ _ hsub
    simp only [filterVal]
    congr 1
    apply reorder_nil_of_none
    intro k hk
    rw [lookup_filterObj,
        lookup_none_of_not_mem k pfs (fun hm => by
          have hin := hs k hm
          fin_cases hk <;> simp at hin)]
    rfl
  | jnull => simp [reprProfile] at h
  | jbool b => simp [reprProfile] at h
  | jnum n => simp [reprProfile] at h
  | jstr s => simp [reprProfile] at h
  | jarr xs => simp [reprProfile] at h

theorem filter_policies (pj : Jval) (p : Policies)
    (h : reprPolicies pj p = true) : filterVal ckKeyList pj = .jobj .nil := by
  cases pj with
  | jobj pfs =>
    simp only [reprPolicies, Bool.and_eq_true] at h
    obtain ⟨⟨⟨⟨_, hsub⟩, _⟩, _⟩, _⟩ := h
    have hs := subset_of_allContains _ _ hsub
    simp only [filterVal]
    congr 1
    apply reorder_nil_of_none
    intro k hk
    rw [lookup_filterObj,
        lookup_none_of_not_mem k pfs (fun hm => by
          have hin := hs k hm
          fin_cases hk <;> simp at hin)]
    rfl
  | jnull => simp [reprPolicies] at h
  | jbool b => simp [reprPolicies] at h
  | jnum n => simp [reprPolicies] at h
  | jstr s => simp [reprPolicies] at h
  | jarr xs => simp [reprPolicies] at h

theorem fieldRepr_true (k : String) (fs : JObj) (p : Jval → Bool)
    (h : fieldRepr k fs p = true) : ∃ v, lookupJ k fs = some v ∧ p v = true := by
  unfold fieldRepr at h
  cases ho : lookupJ k fs with
  | none => rw [ho] at h; exact Bool.noConfusion h
  | some v => rw [ho] at h; exact ⟨v, rfl, h⟩

theorem arrRepr_true (p : JArr → Bool) (v : Jval) (h : arrRepr p v = true) :
    ∃ xs, v = .jarr xs ∧ p xs = true := by
  cases v with
  | jarr xs => exact ⟨xs, rfl, h⟩
  | jnull => exact Bool.noConfusion h
  | jbool b => exact Bool.noConfusion h
  | jnum n => exact Bool.noConfusion h
  | jstr s => exact Bool.noConfusion h
  | jobj fs => exact Bool.noConfusion h

theorem filter_dataSource (dj : Jval) (d : DataSource)
    (h : reprDataSource dj d = true) : filterVal ckKeyList dj = skelDS d := by
  cases dj with
  | jobj fs =>
    simp only [reprDataSource, Bool.and_eq_true] at h
    obtain ⟨⟨⟨⟨⟨⟨_, hsub⟩, hid⟩, _⟩, _⟩, _⟩, _⟩ := h
    have hs := subset_of_allContains _ _ hsub
    have hidl : lookupJ "id" fs = some (.jstr d.id) := by
      simpa [fieldIs] using hid
    have hnone : ∀ k ∈ ["created_at", "data_sources", "memories", "policies",
        "profile", "updated_at", "version"], lookupJ k fs = none := by
      intro k hk
      refine lookup_none_of_not_mem k fs (fun hm => ?_)
      have hin := hs k hm
      fin_cases hk <;> simp at hin
    simp [filterVal, ckKeyList, reorderFields, lookup_filterObj, hidl,
      hnone "created_at" (by simp), hnone "data_sources" (by simp),
      hnone "memories" (by simp), hnone "policies" (by simp),
      hnone "profile" (by simp), hnone "updated_at" (by simp),
      hnone "version" (by simp), skelDS]
  | jnull => simp [reprDataSource] at h
  | jbool b => simp [reprDataSource] at h
  | jnum n => simp [reprDataSource] at h
  | jstr s => simp [reprDataSource] at h
  | jarr xs => simp [reprDataSource] at h

theorem filter_memoryEntry (mj : Jval) (m : MemoryEntry)
    (h : reprMemoryEntry mj m = true) : filterVal ckKeyList mj = skelME m := by
  cases mj with
  | jobj fs =>
    simp only [reprMemoryEntry, Bool.and_eq_true] at h
    obtain ⟨⟨⟨⟨⟨⟨_, hsub⟩, hid⟩, _⟩, hcre⟩, _⟩, _⟩ := h
    have hs := subset_of_allContains _ _ hsub
    have hidl : lookupJ "id" fs = some (.jstr m.id) := by
      simpa [fieldIs] using hid
    have hcrel : lookupJ "created_at" fs = some (.jstr m.created_at) := by
      simpa [fieldIs] using hcre
    have hnone : ∀ k ∈ ["data_sources", "memories", "policies",
        "profile", "updated_at", "version"], lookupJ k fs = none := by
      intro k hk
      refine lookup_none_of_not_mem k fs (fun hm => ?_)
      have hin := hs k hm
      fin_cases hk <;> simp at hin
    simp [filterVal, ckKeyList, reorderFields, lookup_filterObj, hidl, hcrel,
      hnone "data_sources" (by simp),
      hnone "memories" (by simp), hnone "policies" (by simp),
      hnone "profile" (by simp), hnone "updated_at" (by simp),
      hnone "version" (by simp), skelME]
  | jnull => simp [reprMemoryEntry] at h
  | jbool b => simp [reprMemoryEntry] at h
  | jnum n => simp [reprMemoryEntry] at h
  | jstr s => simp [reprMemoryEntry] at h
  | jarr xs => simp [reprMemoryEntry] at h

theorem filter_dsArr (xs : JArr) (ds : List DataSource)
    (h : reprDSArr xs ds = true) : filterArr ckKeyList xs = skelDSArr ds :=
  match xs, ds with
  | .nil, [] => rfl
  | .cons j t, d :: rest => by
    simp only [reprDSArr, Bool.and_eq_true] at h
    simp only [filterArr, skelDSArr]
    rw [filter_dataSource j d h.1, filter_dsArr t rest h.2]
  | .nil, _ :: _ => by simp [reprDSArr] at h
  | .cons _ _, [] => by simp [reprDSArr] at h

theorem filter_meArr (xs : JArr) (ms : List MemoryEntry)
    (h : reprMEArr xs ms = true) : filterArr ckKeyList xs = skelMEArr ms :=
  match xs, ms with
  | .nil, [] => rfl
  | .cons j t, m :: rest => by
    simp only [reprMEArr, Bool.and_eq_true] at h
    simp only [filterArr, skelMEArr]
    rw [filter_memoryEntry j m h.1, filter_meArr t rest h.2]
  | .nil, _ :: _ => by simp [reprMEArr] at h
  | .cons _ _, [] => by simp [reprMEArr] at h

theorem filter_contextKey (j : Jval) (r : ContextKey) (h : reprCK j r = true) :
    filterVal ckKeyList j = skelCK r ∧ contextKeySortedKeys j = ckKeyList := by
  cases j with
  | jobj fs =>
    simp only [reprCK, Bool.and_eq_true] at h
    obtain ⟨⟨⟨⟨⟨⟨⟨⟨hkeys, hver⟩, hid⟩, hcre⟩, hupd⟩, hprof⟩, hpol⟩, hds⟩, hmem⟩ := h
    have hverl : lookupJ "version" fs = some (.jstr r.version) := by
      simpa [fieldIs] using hver
    have hidl : lookupJ "id" fs = some (.jstr r.id) := by
      simpa [fieldIs] using hid
    have hcrel : lookupJ "created_at" fs = some (.jstr r.created_at) := by
      simpa [fieldIs] using hcre
    have hupdl : lookupJ "updated_at" fs = some (.jstr r.updated_at) := by
      simpa [fieldIs] using hupd
    obtain ⟨pj, hpjl, hpj⟩ := fieldRepr_true _ _ _ hprof
    obtain ⟨qj, hqjl, hqj⟩ := fieldRepr_true _ _ _ hpol
    obtain ⟨dv, hdvl, hdv⟩ := fieldRepr_true _ _ _ hds
    obtain ⟨dxs, rfl, hdxs⟩ := arrRepr_true _ _ hdv
    obtain ⟨mv, hmvl, hmv⟩ := fieldRepr_true _ _ _ hmem
    obtain ⟨mxs, rfl, hmxs⟩ := arrRepr_true _ _ hmv
    constructor
    · simp [filterVal, ckKeyList, reorderFields, lookup_filterObj,
        hverl, hidl, hcrel, hupdl, hpjl, hqjl, hdvl, hmvl, skelCK]
      exact ⟨filter_dsArr dxs r.data_sources hdxs,
             filter_meArr mxs r.memories hmxs,
             filter_policies qj r.policies hqj,
             filter_profile pj r.profile hpj⟩
    · have hperm := perm_of_keysPermB _ _ hkeys
      show sortKeys (topKeysOf (.jobj fs)) = ckKeyList
      simp only [topKeysOf]
      rw [sortKeys_congr _ _ hperm]
      decide
  | jnull => simp [reprCK] at h
  | jbool b => simp [reprCK] at h
  | jnum n => simp [reprCK] at h
  | jstr s => simp [reprCK] at h
  | jarr xs => simp [reprCK] at h

/-- Decidable equality of `Except` results, for evaluating the embedded
operations at concrete inputs. -/
instance exceptDecEq {e : Type} {a : Type} [DecidableEq e] [DecidableEq a] :
    DecidableEq (Except e a) := fun x y =>
  match x, y with
  | .ok v, .ok w =>
    if h : v = w then isTrue (by rw [h]) else isFalse (fun hc => h (by cases hc; rfl))
  | .error v, .error w =>
    if h : v = w then isTrue (by rw [h]) else isFalse (fun hc => h (by cases hc; rfl))
  | .ok _, .error _ => isFalse (fun hc => Except.noConfusion hc)
  | .error _, .ok _ => isFalse (fun hc => Except.noConfusion hc)

/-- An envelope whose record holds a non-finite number and whose signature
fields are arbitrary junk. -/
def envNonFinite : SignedCK :=
  { data := .jobj (.cons "x" (.jnum .nan) .nil),
    signature := .valid (.bytes [1, 2, 3]),
    public_key := .valid (.bytes []) }

/-- An envelope with a JSON-faithful record but an invalid signature and a
malformed public key. -/
def envBadSig : SignedCK :=
  { data := rSampleJ,
    signature := .valid (.bytes [1, 2, 3]),
    public_key := .malformed "not base64" }

/-- The claim pipeline of the spec's seal and open operations: sign the
record, seal the envelope under `pSeal`, then open the blob under `pOpen`.
In the source the first step is where the pipeline fails. -/
def sealThenOpen (r : Jval) (priv : SigB64) (pSeal pOpen : String)
    (salt iv : List Nat) : Except JsError SignedCK := do
  let env ← signContextKey r priv
  decryptContextKey (encryptContextKey env pSeal salt iv) pOpen

/-- `signContextKey` never returns an envelope: with a well-formed key the
call reaches `nacl.sign.detached`, whose type guard throws on the string
message produced by the `encodeUTF8` misuse; otherwise base64 decoding or
the key-length check throws first. -/
theorem signContextKey_never_ok (r : Jval) (k : SigB64) (env : SignedCK) :
    signContextKey r k ≠ Except.ok env := by
  intro h
  cases k with
  | malformed s =>
    simp [signContextKey, decodeBase64Sig, Bind.bind, Except.bind] at h
  | valid p =>
    simp only [signContextKey, decodeBase64Sig, fromSecretKeyPub,
      naclSignDetached, encodeUTF8OnString, Bind.bind, Except.bind] at h
    split_ifs at h

/-- `verifyContextKey` returns `false` on every input: when both base64
fields decode, the verify call throws the message type error before any
size or signature check; otherwise the decoding throws; either way the
catch-all returns `false`. -/
theorem verifyContextKey_false (e : SignedCK) : verifyContextKey e = false := by
  rcases hpk : e.public_key with pkp | s
  · rcases hsg : e.signature with sgp | s2
    · simp [verifyContextKey, verifyAux, decodeBase64Sig, hpk, hsg,
        naclVerifyDetached, encodeUTF8OnString, Bind.bind, Except.bind]
    · simp [verifyContextKey, verifyAux, decodeBase64Sig, hpk, hsg,
        Bind.bind, Except.bind]
  · simp [verifyContextKey, verifyAux, decodeBase64Sig, hpk,
      Bind.bind, Except.bind]

/-- C1: for every signed envelope produced by `signContextKey`, mutating any
single byte of the embedded record makes `verifyContextKey` return false.
This holds of the program, degenerately: `signContextKey` never produces an
envelope at all (the string message from the `encodeUTF8` misuse makes
`nacl.sign.detached` throw a TypeError), and `verifyContextKey` returns
false on every input whatsoever — in particular on every envelope with a
mutated record. -/
theorem C1_tamper_always_rejected :
    (∀ (r : Jval) (k : SigB64) (env : SignedCK),
        signContextKey r k ≠ Except.ok env) ∧
    (∀ e : SignedCK, verifyContextKey e = false) :=
  ⟨signContextKey_never_ok, verifyContextKey_false⟩

/-- C2: the claim says open(seal(r, priv, p), p) succeeds and yields an
envelope whose data deep-equals r and which verifies.  The code evaluation
refutes it at the spec's own concrete scenario: the pipeline throws
`TypeError "unexpected type, use Uint8Array"` inside `signContextKey`
(crypto.ts line 37 hands `nacl.sign.detached` a string), before any sealing
happens, so no blob and no reopened envelope ever exist. -/
theorem C2_roundtrip_never_completes :
    sealThenOpen rSampleJ keySampleB "correct-horse" "correct-horse"
      saltSample ivSample
      = .error (.typeError "unexpected type, use Uint8Array") := rfl

/-- C3 (counterexample): the claim says the recorded `kdf_params` exactly
match the key-derivation computation executed at seal time.  At a concrete
seal, the blob records algorithm `argon2id` while the key actually used for
the AES-GCM sealing was derived by PBKDF2. -/
theorem C3_kdf_params_counterexample :
    (encryptContextKey envSample "pw" saltSample ivSample).kdf_params.algorithm
      = "argon2id" ∧
    Option.map DerivedKey.algorithm
      (sealKeyUsed (encryptContextKey envSample "pw" saltSample ivSample))
      = some "PBKDF2" ∧
    "argon2id" ≠ "PBKDF2" :=
  ⟨rfl, rfl, by decide⟩

/-- C3 (amended): every sealed blob records the constant
`kdf_params = (argon2id, 100000, 65536, 1)`, while the key actually used was
derived by PBKDF2-SHA-256 from the password, the salt and 100000 iterations;
only the `iterations` field matches the executed computation, and open-time
derivation replays exactly the salt and the recorded iterations (so the same
password opens the blob). -/
theorem C3_kdf_params_amended (sk : SignedCK) (p : String) (salt iv : List Nat) :
    (encryptContextKey sk p salt iv).kdf_params
      = { algorithm := "argon2id", iterations := 100000,
          memory := 65536, parallelism := 1 } ∧
    sealKeyUsed (encryptContextKey sk p salt iv) = some (deriveKey p salt 100000) ∧
    (deriveKey p salt 100000).algorithm = "PBKDF2" ∧
    (deriveKey p salt 100000).iterations
      = (encryptContextKey sk p salt iv).kdf_params.iterations ∧
    decryptContextKey (encryptContextKey sk p salt iv) p
      = .ok (jsonParseOfStringify sk) := by
  refine ⟨rfl, rfl, rfl, rfl, ?_⟩
  simp [decryptContextKey, encryptContextKey, decodeBase64Blob,
    blobPayloadBytes, aesGcmDecrypt, Bind.bind, Except.bind, Pure.pure,
    Except.pure]

/-- C4 (counterexample): the claim says signing a record containing a `NaN`
fails with a ValidationError rather than silently coercing.  At the
concrete NaN-carrying valid record, `signContextKey` fails with the
TypeError thrown by tweetnacl's message type guard — the code defines no
ValidationError and never inspects the record's values: the NaN-free sample
record fails with the identical error. -/
theorem C4_nan_rejection_counterexample :
    hasNonFinite rNaNJ = true ∧ validContextRecord rNaNJ = true ∧
    signContextKey rNaNJ keySampleB
      = .error (.typeError "unexpected type, use Uint8Array") ∧
    signContextKey rSampleJ keySampleB
      = .error (.typeError "unexpected type, use Uint8Array") :=
  ⟨by decide, by decide, rfl, rfl⟩

/-- C4 (amended): signing performs no validation of the record: for every
record — containing non-finite numbers or not — and every well-formed
64-byte key, `signContextKey` fails with tweetnacl's
`TypeError "unexpected type, use Uint8Array"` (no ValidationError exists
anywhere in the code), and the JSON layer, where it does serialize a
non-finite number, silently renders it as `null` rather than failing. -/
theorem C4_sign_fails_with_typeError (r : Jval) (sk : List Nat)
    (hk : sk.length = 64) :
    signContextKey r (.valid (.bytes sk))
      = .error (.typeError "unexpected type, use Uint8Array") ∧
    renderVal (.jnum .nan) = "null" := by
  refine ⟨?_, rfl⟩
  simp [signContextKey, decodeBase64Sig, sigPayloadBytes, fromSecretKeyPub,
    naclSignDetached, encodeUTF8OnString, hk, Bind.bind, Except.bind]

/-- C4 (witness): the amended statement evaluated at the NaN-carrying valid
record and the sample key. -/
theorem C4_sign_fails_with_typeError_witness :
    skSample.length = 64 ∧
    (signContextKey rNaNJ (.valid (.bytes skSample))
        = .error (.typeError "unexpected type, use Uint8Array") ∧
      renderVal (.jnum .nan) = "null") :=
  ⟨by decide, C4_sign_fails_with_typeError rNaNJ skSample (by decide)⟩

/-- C5 (counterexample): the claim's pipeline
decryptContextKey(encryptContextKey(signContextKey(r, priv), p1), p2) never
reaches the encryption layer: it fails inside `signContextKey` with the
TypeError from the message type guard, a different error from the AEAD
OperationError (the spec's AuthenticationError) the claim requires. -/
theorem C5_pipeline_fails_at_sign :
    sealThenOpen rSampleJ keySampleB "correct-horse" "wrong-password"
      saltSample ivSample
      = .error (.typeError "unexpected type, use Uint8Array") ∧
    JsError.typeError "unexpected type, use Uint8Array"
      ≠ JsError.operationError :=
  ⟨rfl, by decide⟩

/-- C5 (amended): for every already-constructed `SignedContextKey` value
(the claim's own signing step never completes — see the counterexample),
sealing under one password and opening under a different one fails with the
opaque authentication error thrown by AES-GCM (the AuthenticationError of
the spec's taxonomy) and never returns a decoded envelope. -/
theorem C5_wrong_password_fails (sk : SignedCK) (p1 p2 : String)
    (salt iv : List Nat) (h : p1 ≠ p2) :
    decryptContextKey (encryptContextKey sk p1 salt iv) p2
      = .error .operationError := by
  simp [decryptContextKey, encryptContextKey, decodeBase64Blob,
    blobPayloadBytes, aesGcmDecrypt, deriveKey, Bind.bind, Except.bind,
    Pure.pure, Except.pure, h]

/-- C5 (witness): the wrong-password failure evaluated on the spec's
concrete scenario passwords. -/
theorem C5_wrong_password_fails_witness :
    "correct-horse" ≠ "wrong-password" ∧
    decryptContextKey
      (encryptContextKey envSample "correct-horse" saltSample ivSample)
      "wrong-password" = .error .operationError :=
  ⟨by decide,
   C5_wrong_password_fails envSample "correct-horse" "wrong-password"
     saltSample ivSample (by decide)⟩

/-- C6: the claim says verifyContextKey(signContextKey(r, priv)) == true
for every record and key pair.  The code evaluation refutes it: signing the
sample record with a well-formed 64-byte key throws the TypeError from the
message type guard instead of returning an envelope, and `verifyContextKey`
returns false on every envelope — including the very envelope signing would
have produced had the message been passed as bytes. -/
theorem C6_sign_throws_verify_false :
    signContextKey rSampleJ keySampleB
      = .error (.typeError "unexpected type, use Uint8Array") ∧
    verifyContextKey envSample = false :=
  ⟨rfl, by decide⟩

/-- C7: for every input envelope — including ones with malformed signature
base64, malformed key base64, wrong-length keys, or a signature that does
not verify — `verifyContextKey` returns the boolean false and never throws:
it is total by construction (the try/catch turns every thrown error into
`false`), and in fact constantly false, because the verify body always
throws — either in base64 decoding or at tweetnacl's message type guard,
which fires before any size or signature comparison. -/
theorem C7_verify_returns_false_never_throws (e : SignedCK) :
    verifyContextKey e = false :=
  verifyContextKey_false e

example : verifyContextKey envNonFinite = false := by decide
example : verifyContextKey { envSample with signature := .malformed "x" } = false := by
  decide

/-- The typed record represented by both `rSampleJ` and `rScrambledJ`. -/
def rSampleT : ContextKey :=
  { version := "1.0", id := "k1",
    created_at := "2024-01-01T00:00:00Z", updated_at := "2024-01-02T00:00:00Z",
    profile := { display_name := "Ana", tone := "concise", domains := ["ml"] },
    policies := { allow_writeback := true, persistence := "session",
                  pii_handling := "strict" },
    data_sources := [],
    memories := [{ id := "m1", content := "likes brief answers",
                   created_at := "2024-01-01T01:00:00Z",
                   tags := none, source := none }] }

/-- The sample record rebuilt with every object's keys inserted in reversed
order. -/
def rScrambledJ : Jval :=
  .jobj (objOf
    [("memories", .jarr (arrOf
        [.jobj (objOf
           [("created_at", .jstr "2024-01-01T01:00:00Z"),
            ("content", .jstr "likes brief answers"),
            ("id", .jstr "m1")])])),
     ("data_sources", .jarr .nil),
     ("policies", .jobj (objOf
        [("pii_handling", .jstr "strict"),
         ("persistence", .jstr "session"),
         ("allow_writeback", .jbool true)])),
     ("profile", .jobj (objOf
        [("domains", .jarr (arrOf [.jstr "ml"])),
         ("tone", .jstr "concise"),
         ("display_name", .jstr "Ana")])),
     ("updated_at", .jstr "2024-01-02T00:00:00Z"),
     ("created_at", .jstr "2024-01-01T00:00:00Z"),
     ("id", .jstr "k1"),
     ("version", .jstr "1.0")])

/-- C8: the serialization used for signing is independent of key insertion
order — any two JS records representing the same typed `ContextKey`
(field-for-field equal, keys inserted in any order at every level)
serialize to identical bytes, because the top-level keys are sorted and that
sorted whitelist drives the emission order at every nesting level. -/
theorem C8_serialize_order_independent (j1 j2 : Jval) (r : ContextKey)
    (h1 : reprCK j1 r = true) (h2 : reprCK j2 r = true) :
    serializeContextKey j1 = serializeContextKey j2 := by
  obtain ⟨hf1, hk1⟩ := filter_contextKey j1 r h1
  obtain ⟨hf2, hk2⟩ := filter_contextKey j2 r h2
  unfold serializeContextKey
  rw [hk1, hk2, hf1, hf2]

/-- C8 (witness): the sample record and its fully key-reversed variant
serialize identically. -/
theorem C8_serialize_order_independent_witness :
    reprCK rSampleJ rSampleT = true ∧ reprCK rScrambledJ rSampleT = true ∧
    serializeContextKey rSampleJ = serializeContextKey rScrambledJ :=
  ⟨by decide, by decide,
   C8_serialize_order_independent rSampleJ rScrambledJ rSampleT
     (by decide) (by decide)⟩

/-- C9 (counterexample): the claim says the encryption layer returns every
envelope unchanged.  An envelope whose record holds a non-finite number
comes back altered: the `NaN` has become `null` (the `JSON.stringify` /
`JSON.parse` pair inside seal/open is not the identity). -/
theorem C9_exact_roundtrip_counterexample :
    decryptContextKey (encryptContextKey envNonFinite "pw" saltSample ivSample)
      "pw" = .ok { envNonFinite with data := .jobj (.cons "x" .jnull .nil) } ∧
    decryptContextKey (encryptContextKey envNonFinite "pw" saltSample ivSample)
      "pw" ≠ .ok envNonFinite :=
  ⟨by decide, by decide⟩

/-- C9 (amended): for every envelope whose record is JSON-faithful (no
non-finite numbers, no duplicate keys — every envelope a JS runtime can
hold), sealing and opening with the same password returns the envelope
exactly, whether or not its signature is valid: neither `encryptContextKey`
nor `decryptContextKey` inspects the signature, so `open` can hand back an
envelope whose signature does not verify. -/
theorem C9_encryption_roundtrip_amended (sk : SignedCK) (p : String)
    (salt iv : List Nat) (h : jsFaithful sk.data = true) :
    decryptContextKey (encryptContextKey sk p salt iv) p = .ok sk := by
  simp [decryptContextKey, encryptContextKey, decodeBase64Blob,
    blobPayloadBytes, aesGcmDecrypt, jsonParseOfStringify,
    Bind.bind, Except.bind, Pure.pure, Except.pure]
  cases sk with
  | mk d sg pk => exact congrArg (fun x => SignedCK.mk x sg pk) (jsonReparse_self d h)

/-- C9 (witness): the exact round trip evaluated on an envelope whose
signature is garbage bytes and whose public key is malformed base64 — it
still comes back unchanged, and its signature does not verify. -/
theorem C9_encryption_roundtrip_amended_witness :
    jsFaithful envBadSig.data = true ∧
    decryptContextKey (encryptContextKey envBadSig "pw" saltSample ivSample)
      "pw" = .ok envBadSig ∧
    verifyContextKey envBadSig = false :=
  ⟨by decide,
   C9_encryption_roundtrip_amended envBadSig "pw" saltSample ivSample (by decide),
   by decide⟩

/-- C10: the outcome of `decryptContextKey` is independent of the blob's
`kdf_params.algorithm`, `kdf_params.memory` and `kdf_params.parallelism`:
only `kdf_params.iterations` (with the salt and password) enters the
open-time key derivation, so two blobs identical except for those three
fields decrypt identically. -/
theorem C10_decrypt_ignores_kdf_labels (blob : EncryptedCK) (p alg : String)
    (mem par : Nat) :
    decryptContextKey
      { blob with kdf_params :=
          { algorithm := alg, iterations := blob.kdf_params.iterations,
            memory := mem, parallelism := par } } p
      = decryptContextKey blob p := by
  cases blob with
  | mk ed biv bsalt kdf => cases kdf with | mk a i m q => rfl
